import Mathlib

/-!
Verification of the d2-net training orchestration scripts.

This file gives a shallow embedding of the two source files of the
repository, `train.py` and `make_list.py`, and proves the stated
properties of the spec against it.

Embedding conventions:
  * The loss function (an external collaborator) is abstracted by the
    outcome it produces on each batch: a rational loss value, the
    caught NoGradientError signal, or any other (uncaught) exception.
  * `np.mean` of an empty list is NaN in the source; it is modelled as
    `Option.none` (an undefined mean).
  * Model parameters together with optimizer state are an abstract type
    mutated only through the three operations the loop uses
    (optimizer.zero_grad, loss.backward, optimizer.step).
  * Exceptions that escape a function are `Except.error`.
-/

namespace D2Net

/-- Outcome of evaluating the loss function on one batch
(train.py lines 179-182): a scalar loss, the NoGradientError signal
(which is caught and causes a `continue`), or any other exception
(which is not caught). -/
inductive BatchOutcome where
  | ok (loss : ℚ)
  | noGrad
  | raise
  deriving DecidableEq

/-- Observable actions of one `process_epoch` pass:
`torch.set_grad_enabled(train)` at entry (line 164),
`optimizer.zero_grad()` (line 170), the periodic running-average log
tick to the log file and the metrics backend (lines 189-195),
`loss.backward()` (line 198) and `optimizer.step()` (line 199). -/
inductive Ev where
  | setGradEnabled (enabled : Bool)
  | zeroGrad (batchIdx : ℕ)
  | logTick (train : Bool) (epochIdx : ℕ) (batchIdx : ℕ) (avgLoss : ℚ)
  | backward (batchIdx : ℕ)
  | optStep (batchIdx : ℕ)
  deriving DecidableEq

/-- The mutators through which `process_epoch` can change the model
parameters and the optimizer state (abstract state `σ`). -/
structure ModelOps (σ : Type) where
  zero_grad : σ → σ
  backward : σ → ℚ → σ
  opt_step : σ → σ

/-- State threaded through the batch loop of `process_epoch`:
the `epoch_losses` list (line 162), the trace of observable actions,
and the model-plus-optimizer state. -/
structure EpochSt (σ : Type) where
  losses : List ℚ
  events : List Ev
  st : σ
  deriving DecidableEq

/-- Mean of a list of rationals, as `np.mean` computes it on a
nonempty list (sum divided by length). -/
def meanD (l : List ℚ) : ℚ := l.sum / l.length

/-- `np.mean`: on an empty list the result is NaN, modelled as `none`
(the undefined-mean condition). -/
def npMean (l : List ℚ) : Option ℚ :=
  if l = [] then none else some (meanD l)

/-- One iteration of the batch loop of `process_epoch`
(train.py lines 168-199) on the enumerated pair (batch index, batch).
In train mode `optimizer.zero_grad()` runs first (line 170); then the
loss function is evaluated (line 180): `NoGradientError` skips the
rest of the iteration (lines 181-182), any other exception propagates;
otherwise the loss is appended to `epoch_losses` (line 185), a log
tick fires when the batch index is divisible by the log interval
(lines 189-195), and in train mode `loss.backward()` and
`optimizer.step()` run (lines 197-199). -/
def procBatch {σ : Type} (train : Bool) (epochIdx L : ℕ) (M : ModelOps σ)
    (s : EpochSt σ) (p : ℕ × BatchOutcome) : Except Unit (EpochSt σ) :=
  let i := p.1
  let s1 : EpochSt σ :=
    if train then
      { s with st := M.zero_grad s.st, events := s.events ++ [Ev.zeroGrad i] }
    else s
  match p.2 with
  | BatchOutcome.raise => Except.error ()
  | BatchOutcome.noGrad => Except.ok s1
  | BatchOutcome.ok loss =>
    let losses' := s1.losses ++ [loss]
    let s2 : EpochSt σ := { s1 with losses := losses' }
    let s3 : EpochSt σ :=
      if i % L = 0 then
        { s2 with events :=
            s2.events ++ [Ev.logTick train epochIdx i (meanD losses')] }
      else s2
    if train then
      Except.ok { s3 with
        st := M.opt_step (M.backward s3.st loss),
        events := s3.events ++ [Ev.backward i, Ev.optStep i] }
    else Except.ok s3

/-- The batch loop of `process_epoch` over the enumerated dataloader
output; the first uncaught exception aborts the loop. -/
def runBatches {σ : Type} (train : Bool) (epochIdx L : ℕ) (M : ModelOps σ) :
    EpochSt σ → List (ℕ × BatchOutcome) → Except Unit (EpochSt σ)
  | s, [] => Except.ok s
  | s, p :: ps =>
    match procBatch train epochIdx L M s p with
    | Except.error e => Except.error e
    | Except.ok s' => runBatches train epochIdx L M s' ps

/-- `process_epoch` (train.py lines 157-211): set gradient mode, run
the batch loop over `enumerate(dataloader)` starting from an empty
loss list, and return `np.mean(epoch_losses)` together with the final
loop state. -/
def process_epoch {σ : Type} (epochIdx : ℕ) (train : Bool) (L : ℕ)
    (M : ModelOps σ) (init : σ) (batches : List BatchOutcome) :
    Except Unit (Option ℚ × EpochSt σ) :=
  match runBatches train epochIdx L M
      ⟨[], [Ev.setGradEnabled train], init⟩ batches.enum with
  | Except.error e => Except.error e
  | Except.ok s => Except.ok (npMean s.losses, s)

/-- The loss value of a successful batch outcome. -/
def okLoss : BatchOutcome → Option ℚ
  | BatchOutcome.ok l => some l
  | _ => none

/-- The log ticks of an event trace (mode, epoch, batch, running avg). -/
def ticksOf (evs : List Ev) : List (Bool × ℕ × ℕ × ℚ) :=
  evs.filterMap (fun e => match e with
    | Ev.logTick t ep i a => some (t, ep, i, a)
    | _ => none)

/-- The batch indices at which `loss.backward()` ran. -/
def backIdxs (evs : List Ev) : List ℕ :=
  evs.filterMap (fun e => match e with
    | Ev.backward i => some i
    | _ => none)

/-- The batch indices at which `optimizer.step()` ran. -/
def stepIdxs (evs : List Ev) : List ℕ :=
  evs.filterMap (fun e => match e with
    | Ev.optStep i => some i
    | _ => none)

/-- The state-mutating events of a trace (zero_grad, backward, step). -/
def mutEvs (evs : List Ev) : List Ev :=
  evs.filter (fun e => match e with
    | Ev.zeroGrad _ => true
    | Ev.backward _ => true
    | Ev.optStep _ => true
    | _ => false)

/-- The gradient-mode settings of a trace. -/
def gradModes (evs : List Ev) : List Bool :=
  evs.filterMap (fun e => match e with
    | Ev.setGradEnabled b => some b
    | _ => none)

/-- Whether a computation finished without an uncaught exception. -/
def isOkE {ε A : Type} : Except ε A → Bool
  | Except.ok _ => true
  | Except.error _ => false

/-- The epoch loss returned by `process_epoch`, when it returned. -/
def epochResult {σ : Type} (r : Except Unit (Option ℚ × EpochSt σ)) :
    Option (Option ℚ) :=
  match r with
  | Except.ok (a, _) => some a
  | Except.error _ => none

/-- The final model-plus-optimizer state of `process_epoch`, when it
returned. -/
def stOf {σ : Type} (r : Except Unit (Option ℚ × EpochSt σ)) : Option σ :=
  match r with
  | Except.ok (_, s) => some s.st
  | Except.error _ => none

/-- The mutating events of a completed `process_epoch`. -/
def mutOf {σ : Type} (r : Except Unit (Option ℚ × EpochSt σ)) :
    Option (List Ev) :=
  match r with
  | Except.ok (_, s) => some (mutEvs s.events)
  | Except.error _ => none

/-- The gradient-mode settings of a completed `process_epoch`. -/
def gradOf {σ : Type} (r : Except Unit (Option ℚ × EpochSt σ)) :
    Option (List Bool) :=
  match r with
  | Except.ok (_, s) => some (gradModes s.events)
  | Except.error _ => none

/-- The log ticks of a completed `process_epoch`. -/
def ticksResOf {σ : Type} (r : Except Unit (Option ℚ × EpochSt σ)) :
    Option (List (Bool × ℕ × ℕ × ℚ)) :=
  match r with
  | Except.ok (_, s) => some (ticksOf s.events)
  | Except.error _ => none

/-- The log ticks an epoch pass produces on a list of enumerated
batches, given the losses `acc` already accumulated: a tick fires on
each non-skipped batch whose index is divisible by the log interval,
and carries the running mean including the current loss.  (The value
on a list containing an uncaught exception is irrelevant: the loop
aborts there.) -/
def expTicks (train : Bool) (ep L : ℕ) :
    List ℚ → List (ℕ × BatchOutcome) → List (Bool × ℕ × ℕ × ℚ)
  | _, [] => []
  | acc, (_, BatchOutcome.noGrad) :: ps => expTicks train ep L acc ps
  | _, (_, BatchOutcome.raise) :: _ => []
  | acc, (i, BatchOutcome.ok l) :: ps =>
    (if i % L = 0 then [(train, ep, i, meanD (acc ++ [l]))] else []) ++
      expTicks train ep L (acc ++ [l]) ps

/-! ### The outer training loop (train.py lines 213-280)

The outer loop is parametrized by the per-epoch results of
`process_epoch` — `f i` is the loss returned by the training pass of
epoch `i ≥ 1` and `g i` the loss returned by the validation pass of
epoch `i` (`g 0` is the epoch-0 baseline pass) — and by the model and
optimizer `state_dict()` snapshots `ms i`, `os' i` taken when the
checkpoint of epoch `i` is saved.  Loss values live in an arbitrary
linear order `α` (the source compares them with `<`).  -/

/-- The parsed command-line arguments of train.py (lines 46-105).
The learning rate (a float) is not needed by any claim and is
omitted; `ckptPre` is the checkpoint-name stem passed on the command
line (default "d2"). -/
structure Args where
  dataset_path : String
  scene_info_path : String
  preprocessing : String
  model_file : String
  num_epochs : ℕ
  batch_size : ℕ
  num_workers : ℕ
  use_validation : Bool
  log_interval : ℕ
  log_file : String
  ckptPre : String
  deriving DecidableEq

/-- The checkpoint dictionary saved by `torch.save`
(train.py lines 259-266): configuration, epoch index, model
`state_dict`, optimizer `state_dict`, and the two loss histories. -/
structure Ckpt (α μ ω : Type) where
  args : Args
  epoch_idx : ℕ
  model : μ
  optimizer : ω
  train_loss_history : List α
  validation_loss_history : List α
  deriving DecidableEq

/-- The two scene datasets whose `build_dataset()` calls the
orchestrator makes. -/
inductive DS where
  | training
  | validation
  deriving DecidableEq

/-- State of the outer loop: the two loss histories (lines 219-220),
the `min_validation_loss` variable (defined only when validation is
enabled, line 223), the checkpoint files written by `torch.save` in
order, the current content of the best-checkpoint file, and the
`build_dataset()` calls made so far tagged with the epoch index
current at the call. -/
structure OuterState (α μ ω : Type) where
  train_loss_history : List α
  validation_loss_history : List α
  min_validation_loss : Option α
  savedFiles : List (String × Ckpt α μ ω)
  bestFile : Option (String × Ckpt α μ ω)
  builds : List (DS × ℕ)
  deriving DecidableEq

/-- Python's `'%02d' % n`: decimal digits, zero-padded on the left to
width two. -/
def fmt02 (n : ℕ) : String :=
  if (toString n).length < 2 then "0" ++ toString n else toString n

/-- The checkpoint filename `'%s.%02d.pth' % (prefix_, epoch_idx)`
(train.py line 257). -/
def ckptName (pre : String) (i : ℕ) : String :=
  pre ++ "." ++ fmt02 i ++ ".pth"

/-- The best-checkpoint filename `'%s.best.pth' % prefix_`
(train.py line 275). -/
def bestName (pre : String) : String := pre ++ ".best.pth"

/-- One iteration of the outer epoch loop (train.py lines 231-277):
rebuild the training dataset, run the training pass and append its
loss, optionally run the validation pass and append its loss, save
the epoch checkpoint, and — when validation is enabled — compare the
latest validation loss against `min_validation_loss` (a `NameError`,
modelled as `Except.error`, if that variable was never assigned) and
copy the checkpoint to the best-checkpoint file on strict
improvement. -/
def epochStep {α μ ω : Type} [LinearOrder α] (args : Args) (f g : ℕ → α)
    (ms : ℕ → μ) (os' : ℕ → ω) (st : OuterState α μ ω) (i : ℕ) :
    Except Unit (OuterState α μ ω) :=
  let builds' := st.builds ++ [(DS.training, i)]
  let tHist := st.train_loss_history ++ [f i]
  let vHist :=
    if args.use_validation then st.validation_loss_history ++ [g i]
    else st.validation_loss_history
  let ck : Ckpt α μ ω :=
    { args := args, epoch_idx := i, model := ms i, optimizer := os' i,
      train_loss_history := tHist, validation_loss_history := vHist }
  let saved := st.savedFiles ++ [(ckptName args.ckptPre i, ck)]
  if args.use_validation then
    match st.min_validation_loss with
    | none => Except.error ()
    | some m =>
      if g i < m then
        Except.ok { train_loss_history := tHist,
                    validation_loss_history := vHist,
                    min_validation_loss := some (g i),
                    savedFiles := saved,
                    bestFile := some (bestName args.ckptPre, ck),
                    builds := builds' }
      else
        Except.ok { train_loss_history := tHist,
                    validation_loss_history := vHist,
                    min_validation_loss := some m,
                    savedFiles := saved,
                    bestFile := st.bestFile,
                    builds := builds' }
  else
    Except.ok { train_loss_history := tHist,
                validation_loss_history := vHist,
                min_validation_loss := st.min_validation_loss,
                savedFiles := saved,
                bestFile := st.bestFile,
                builds := builds' }

/-- The state before the first training epoch (train.py lines
218-228): empty histories; when validation is enabled, the validation
dataset is built once and the epoch-0 baseline validation pass
initializes `min_validation_loss`. -/
def initState {α μ ω : Type} (args : Args) (g : ℕ → α) : OuterState α μ ω :=
  if args.use_validation then
    { train_loss_history := [], validation_loss_history := [],
      min_validation_loss := some (g 0), savedFiles := [],
      bestFile := none, builds := [(DS.validation, 0)] }
  else
    { train_loss_history := [], validation_loss_history := [],
      min_validation_loss := none, savedFiles := [],
      bestFile := none, builds := [] }

/-- The outer loop after the first `n` epochs 1, …, n (train.py line
231 iterates `range(1, num_epochs + 1)`). -/
def outerLoop {α μ ω : Type} [LinearOrder α] (args : Args) (f g : ℕ → α)
    (ms : ℕ → μ) (os' : ℕ → ω) : ℕ → Except Unit (OuterState α μ ω)
  | 0 => Except.ok (initState args g)
  | n + 1 =>
    match outerLoop args f g ms os' n with
    | Except.error e => Except.error e
    | Except.ok st => epochStep args f g ms os' st (n + 1)

/-- The full training run: all `num_epochs` epochs. -/
def trainRun {α μ ω : Type} [LinearOrder α] (args : Args) (f g : ℕ → α)
    (ms : ℕ → μ) (os' : ℕ → ω) : Except Unit (OuterState α μ ω) :=
  outerLoop args f g ms os' args.num_epochs

/-- The per-epoch loss history after `n` epochs: values at epochs
1, …, n in order. -/
def histUpTo {α : Type} (f : ℕ → α) (n : ℕ) : List α :=
  (List.range n).map (fun k => f (k + 1))

/-- The checkpoint contents saved at the end of epoch `i`. -/
def ckptAt {α μ ω : Type} (args : Args) (f g : ℕ → α) (ms : ℕ → μ)
    (os' : ℕ → ω) (i : ℕ) : Ckpt α μ ω :=
  { args := args, epoch_idx := i, model := ms i, optimizer := os' i,
    train_loss_history := histUpTo f i,
    validation_loss_history :=
      if args.use_validation then histUpTo g i else [] }

/-- The minimum of the validation losses of epochs 0, …, n. -/
def minUpTo {α : Type} [LinearOrder α] (g : ℕ → α) : ℕ → α
  | 0 => g 0
  | n + 1 => min (minUpTo g n) (g (n + 1))

/-- The checkpoint files written by a run, when it completed. -/
def filesOf {α μ ω : Type} (r : Except Unit (OuterState α μ ω)) :
    Option (List (String × Ckpt α μ ω)) :=
  match r with
  | Except.ok st => some st.savedFiles
  | Except.error _ => none

/-- The best-checkpoint file of a run, when the run completed. -/
def bestOf {α μ ω : Type} (r : Except Unit (OuterState α μ ω)) :
    Option (Option (String × Ckpt α μ ω)) :=
  match r with
  | Except.ok st => some st.bestFile
  | Except.error _ => none

/-- The `min_validation_loss` variable of a run, when it completed. -/
def minValOf {α μ ω : Type} (r : Except Unit (OuterState α μ ω)) :
    Option (Option α) :=
  match r with
  | Except.ok st => some st.min_validation_loss
  | Except.error _ => none

/-- The `build_dataset()` calls of a run, when it completed. -/
def buildsOf {α μ ω : Type} (r : Except Unit (OuterState α μ ω)) :
    Option (List (DS × ℕ)) :=
  match r with
  | Except.ok st => some st.builds
  | Except.error _ => none

/-! ### Files and logging -/

/-- Writing `content` to a file that currently holds `prior`:
mode `'w'` (`truncate = true`) replaces the content, mode `'a'`
(`truncate = false`) appends. -/
def pyWrite (truncate : Bool) (prior content : String) : String :=
  if truncate then content else prior ++ content

/-- The log-file handling of train.py lines 213-216 together with the
training run: `os.path.exists(args.log_file)` decides whether the
warning is printed, the file is opened in append mode (so a run that
writes `written` leaves `prior ++ written` behind), and the run itself
starts unconditionally.  `logFile0` is the log file's content before
the run, or `none` when the file does not exist. -/
def mainRun {α μ ω : Type} [LinearOrder α] (args : Args) (f g : ℕ → α)
    (ms : ℕ → μ) (os' : ℕ → ω) (logFile0 : Option String)
    (written : String) :
    Bool × String × Except Unit (OuterState α μ ω) :=
  (logFile0.isSome,
   pyWrite false (logFile0.getD "") written,
   trainRun args f g ms os')

/-! ### The image lister (make_list.py) -/

/-- The filesystem as the lister sees it: `os.listdir` and
`os.path.isfile`. -/
structure FS where
  listdir : String → List String
  isfile : String → Bool

/-- Python's `str.endswith`, computed on the character sequence. -/
def pyEndsWith (s post : String) : Bool :=
  List.isSuffixOf post.data s.data

/-- Python's `str.startswith`, computed on the character sequence. -/
def pyStartsWith (s pre : String) : Bool :=
  List.isPrefixOf pre.data s.data

/-- `os.path.join` on POSIX for two components: an absolute second
component wins; otherwise a separator is inserted unless the first
component is empty or already ends with one. -/
def osPathJoin (a b : String) : String :=
  if pyStartsWith b "/" then b
  else if pyEndsWith a "/" || a == "" then a ++ b
  else a ++ "/" ++ b

/-- The paths one directory contributes (make_list.py line 14): the
entries of `listdir(folder)`, kept when `isfile(join(folder, f))`
holds and the name ends in `.jpg`, each joined to the folder,
preserving enumeration order. -/
def folderImages (fs : FS) (folder : String) : List String :=
  ((fs.listdir folder).filter
      (fun f => fs.isfile (osPathJoin folder f) && pyEndsWith f ".jpg")).map
    (fun f => osPathJoin folder f)

/-- The `files` list of make_list.py (lines 12-14): `files.extend`
over the folder list, preserving folder order. -/
def make_list_files (fs : FS) (folders : List String) : List String :=
  folders.foldl (fun files folder => files ++ folderImages fs folder) []

/-- The fixed folder list of make_list.py (lines 6-11). -/
def aachenFolders : List String :=
  ["~/aachen/images/images_upright/db/",
   "~/aachen/images/images_upright/query/night/nexus5x/",
   "~/aachen/images/images_upright/query/night/milestone/",
   "~/aachen/images/images_upright/query/day/nexus5x/",
   "~/aachen/images/images_upright/query/day/nexus4/",
   "~/aachen/images/images_upright/query/day/milestone/"]

/-- The manifest text: one path per line (make_list.py lines 17-18). -/
def manifest (files : List String) : String :=
  String.join (files.map (fun f => f ++ "\n"))

/-- `images.txt` after the lister ran: opened with mode `'w'`
(make_list.py line 16), so the prior content is discarded. -/
def images_txt (fs : FS) (folders : List String) (prior : String) :
    String :=
  pyWrite true prior (manifest (make_list_files fs folders))

/-! ### Lemmas: the batch loop of `process_epoch` -/

lemma ticksOf_append (a b : List Ev) :
    ticksOf (a ++ b) = ticksOf a ++ ticksOf b := by
  simp [ticksOf]

lemma mutEvs_append (a b : List Ev) :
    mutEvs (a ++ b) = mutEvs a ++ mutEvs b := by
  simp [mutEvs]

lemma gradModes_append (a b : List Ev) :
    gradModes (a ++ b) = gradModes a ++ gradModes b := by
  simp [gradModes]

lemma procBatch_raise {σ : Type} (train : Bool) (ep L : ℕ) (M : ModelOps σ)
    (s : EpochSt σ) (i : ℕ) :
    procBatch train ep L M s (i, BatchOutcome.raise) = Except.error () := by
  simp [procBatch]

lemma procBatch_noGrad {σ : Type} (train : Bool) (ep L : ℕ) (M : ModelOps σ)
    (s : EpochSt σ) (i : ℕ) :
    ∃ t, procBatch train ep L M s (i, BatchOutcome.noGrad) = Except.ok t ∧
      t.losses = s.losses ∧
      ticksOf t.events = ticksOf s.events ∧
      backIdxs t.events = backIdxs s.events ∧
      stepIdxs t.events = stepIdxs s.events ∧
      (train = false → t.st = s.st ∧ mutEvs t.events = mutEvs s.events) ∧
      gradModes t.events = gradModes s.events := by
  cases train <;>
    simp [procBatch, ticksOf, backIdxs, stepIdxs, mutEvs, gradModes]

lemma procBatch_ok {σ : Type} (train : Bool) (ep L : ℕ) (M : ModelOps σ)
    (s : EpochSt σ) (i : ℕ) (l : ℚ) :
    ∃ t, procBatch train ep L M s (i, BatchOutcome.ok l) = Except.ok t ∧
      t.losses = s.losses ++ [l] ∧
      ticksOf t.events = ticksOf s.events ++
        (if i % L = 0 then [(train, ep, i, meanD (s.losses ++ [l]))]
         else []) ∧
      (train = false → t.st = s.st ∧ mutEvs t.events = mutEvs s.events) ∧
      gradModes t.events = gradModes s.events := by
  cases train <;> by_cases hi : i % L = 0 <;>
    simp [procBatch, hi, ticksOf, mutEvs, gradModes]

/-- Main induction for the batch loop: on a batch list with no
uncaught exception, the loop completes; its loss list extends the
initial one by exactly the losses of the non-skipped batches; its
ticks extend the initial ones by `expTicks`; in evaluate mode neither
the model-plus-optimizer state nor the mutation trace changes; the
gradient-mode trace never grows. -/
lemma runBatches_spec {σ : Type} (train : Bool) (ep L : ℕ) (M : ModelOps σ) :
    ∀ (ps : List (ℕ × BatchOutcome)) (s : EpochSt σ),
      (∀ p ∈ ps, p.2 ≠ BatchOutcome.raise) →
      ∃ s', runBatches train ep L M s ps = Except.ok s' ∧
        s'.losses = s.losses ++ (ps.map Prod.snd).filterMap okLoss ∧
        ticksOf s'.events = ticksOf s.events ++ expTicks train ep L s.losses ps ∧
        (train = false → s'.st = s.st ∧ mutEvs s'.events = mutEvs s.events) ∧
        gradModes s'.events = gradModes s.events := by
  intro ps
  induction ps with
  | nil =>
    intro s _
    exact ⟨s, rfl, by simp [okLoss], by simp [expTicks],
      fun _ => ⟨rfl, rfl⟩, rfl⟩
  | cons p ps ih =>
    intro s hnr
    obtain ⟨i, b⟩ := p
    have htail : ∀ p ∈ ps, p.2 ≠ BatchOutcome.raise :=
      fun p hp => hnr p (List.mem_cons_of_mem _ hp)
    cases b with
    | raise =>
      exact absurd rfl (hnr (i, BatchOutcome.raise) (List.mem_cons_self _ _))
    | noGrad =>
      obtain ⟨t, hpt, htl, htt, htb, hts, htf, htg⟩ :=
        procBatch_noGrad train ep L M s i
      obtain ⟨s', h, hl, ht, hf, hg⟩ := ih t htail
      refine ⟨s', ?_, ?_, ?_, ?_, ?_⟩
      · rw [runBatches, hpt]; exact h
      · rw [hl, htl]; simp [okLoss]
      · rw [ht, htt, htl]; simp [expTicks]
      · intro h0
        obtain ⟨hf1, hf2⟩ := hf h0
        obtain ⟨hg1, hg2⟩ := htf h0
        exact ⟨hf1.trans hg1, hf2.trans hg2⟩
      · exact hg.trans htg
    | ok l =>
      obtain ⟨t, hpt, htl, htt, htf, htg⟩ := procBatch_ok train ep L M s i l
      obtain ⟨s', h, hl, ht, hf, hg⟩ := ih t htail
      refine ⟨s', ?_, ?_, ?_, ?_, ?_⟩
      · rw [runBatches, hpt]; exact h
      · rw [hl, htl]; simp [okLoss]
      · rw [ht, htt, htl, expTicks]; simp
      · intro h0
        obtain ⟨hf1, hf2⟩ := hf h0
        obtain ⟨hg1, hg2⟩ := htf h0
        exact ⟨hf1.trans hg1, hf2.trans hg2⟩
      · exact hg.trans htg

/-- The loop aborts exactly on a list containing an uncaught
exception. -/
lemma runBatches_ok_iff {σ : Type} (train : Bool) (ep L : ℕ)
    (M : ModelOps σ) :
    ∀ (ps : List (ℕ × BatchOutcome)) (s : EpochSt σ),
      isOkE (runBatches train ep L M s ps) = true ↔
        ∀ p ∈ ps, p.2 ≠ BatchOutcome.raise := by
  intro ps
  induction ps with
  | nil => intro s; simp [runBatches, isOkE]
  | cons p ps ih =>
    intro s
    obtain ⟨i, b⟩ := p
    cases b with
    | raise =>
      rw [runBatches, procBatch_raise]
      simp [isOkE]
    | noGrad =>
      obtain ⟨t, hpt, -⟩ := procBatch_noGrad train ep L M s i
      rw [runBatches, hpt]
      simp only [ih t]
      constructor
      · intro h p hp
        rcases List.mem_cons.mp hp with h1 | h1
        · rw [h1]; simp
        · exact h p h1
      · intro h p hp
        exact h p (List.mem_cons_of_mem _ hp)
    | ok l =>
      obtain ⟨t, hpt, -⟩ := procBatch_ok train ep L M s i l
      rw [runBatches, hpt]
      simp only [ih t]
      constructor
      · intro h p hp
        rcases List.mem_cons.mp hp with h1 | h1
        · rw [h1]; simp
        · exact h p h1
      · intro h p hp
        exact h p (List.mem_cons_of_mem _ hp)

lemma expTicks_mem (train : Bool) (ep L : ℕ) :
    ∀ (ps : List (ℕ × BatchOutcome)) (acc : List ℚ) (t : Bool) (e i : ℕ)
      (a : ℚ), (t, e, i, a) ∈ expTicks train ep L acc ps →
      i % L = 0 ∧ ∃ l, (i, BatchOutcome.ok l) ∈ ps := by
  intro ps
  induction ps with
  | nil => intro acc t e i a h; simp [expTicks] at h
  | cons p ps ih =>
    intro acc t e i a h
    obtain ⟨j, b⟩ := p
    cases b with
    | raise => simp [expTicks] at h
    | noGrad =>
      rw [expTicks] at h
      obtain ⟨hmod, l, hl⟩ := ih acc t e i a h
      exact ⟨hmod, l, List.mem_cons_of_mem _ hl⟩
    | ok l0 =>
      rw [expTicks] at h
      rcases List.mem_append.mp h with h1 | h1
      · by_cases hj : j % L = 0
        · rw [if_pos hj] at h1
          simp only [List.mem_singleton, Prod.mk.injEq] at h1
          obtain ⟨-, -, hi, -⟩ := h1
          subst hi
          exact ⟨hj, l0, List.mem_cons_self _ _⟩
        · rw [if_neg hj] at h1
          simp at h1
      · obtain ⟨hmod, l, hl⟩ := ih (acc ++ [l0]) t e i a h1
        exact ⟨hmod, l, List.mem_cons_of_mem _ hl⟩

lemma snd_mem_of_mem_enum {A : Type} {bs : List A} {p : ℕ × A}
    (hp : p ∈ bs.enum) : p.2 ∈ bs := by
  have := List.mem_map_of_mem Prod.snd hp
  rwa [List.enum_map_snd] at this

lemma exists_enum_of_mem {A : Type} {bs : List A} {b : A} (hb : b ∈ bs) :
    ∃ i, (i, b) ∈ bs.enum := by
  rw [← List.enum_map_snd bs] at hb
  obtain ⟨p, hp, he⟩ := List.mem_map.mp hb
  refine ⟨p.1, ?_⟩
  rw [← he]
  simpa using hp

lemma process_epoch_isOk {σ : Type} (ep : ℕ) (train : Bool) (L : ℕ)
    (M : ModelOps σ) (init : σ) (bs : List BatchOutcome) :
    isOkE (process_epoch ep train L M init bs) =
      isOkE (runBatches train ep L M
        ⟨[], [Ev.setGradEnabled train], init⟩ bs.enum) := by
  unfold process_epoch
  rcases hr : runBatches train ep L M
      ⟨[], [Ev.setGradEnabled train], init⟩ bs.enum with e | s <;>
    simp [isOkE]

lemma enum_no_raise_iff (bs : List BatchOutcome) :
    (∀ p ∈ bs.enum, p.2 ≠ BatchOutcome.raise) ↔
      ∀ b ∈ bs, b ≠ BatchOutcome.raise := by
  constructor
  · intro h b hb
    obtain ⟨i, hi⟩ := exists_enum_of_mem hb
    exact h (i, b) hi
  · intro h p hp
    exact h p.2 (snd_mem_of_mem_enum hp)

/-! ### Claims about `process_epoch` (C1, C3, C7, C9) -/

/-- Claim C1: for every completed epoch pass (train or evaluate), the
scalar returned by `process_epoch` equals the arithmetic mean of the
loss values of all non-skipped batches of that epoch; an epoch in
which every batch is skipped yields the undefined mean of an empty
sequence (modelled as `none`). -/
theorem claim_C1 {σ : Type} (ep : ℕ) (train : Bool) (L : ℕ)
    (M : ModelOps σ) (init : σ) (bs : List BatchOutcome)
    (h : ∀ b ∈ bs, b ≠ BatchOutcome.raise) :
    epochResult (process_epoch ep train L M init bs) =
      some (npMean (bs.filterMap okLoss)) ∧
    (bs.filterMap okLoss = [] → npMean (bs.filterMap okLoss) = none) := by
  obtain ⟨s', hrun, hl, -, -, -⟩ :=
    runBatches_spec train ep L M bs.enum
      ⟨[], [Ev.setGradEnabled train], init⟩
      ((enum_no_raise_iff bs).mpr h)
  have hlosses : s'.losses = bs.filterMap okLoss := by
    rw [hl]; simp [List.enum_map_snd]
  constructor
  · unfold process_epoch
    rw [hrun]
    simp [epochResult, hlosses]
  · intro he
    simp [npMean, he]

/-- Claim C3: a batch on which the loss function raises
`NoGradientError` is skipped entirely — it appends no loss, fires no
log tick, and causes no backward pass and no optimizer step — while
`process_epoch` completes exactly when no batch raises any other
exception (such an exception propagates out of the loop). -/
theorem claim_C3 {σ : Type} (train : Bool) (ep L : ℕ) (M : ModelOps σ) :
    (∀ (s : EpochSt σ) (i : ℕ),
      ∃ t, procBatch train ep L M s (i, BatchOutcome.noGrad) =
          Except.ok t ∧
        t.losses = s.losses ∧ ticksOf t.events = ticksOf s.events ∧
        backIdxs t.events = backIdxs s.events ∧
        stepIdxs t.events = stepIdxs s.events) ∧
    (∀ (init : σ) (bs : List BatchOutcome),
      isOkE (process_epoch ep train L M init bs) = true ↔
        ∀ b ∈ bs, b ≠ BatchOutcome.raise) := by
  constructor
  · intro s i
    obtain ⟨t, h1, h2, h3, h4, h5, -, -⟩ := procBatch_noGrad train ep L M s i
    exact ⟨t, h1, h2, h3, h4, h5⟩
  · intro init bs
    rw [process_epoch_isOk, runBatches_ok_iff, enum_no_raise_iff]

/-- Claim C7: an evaluate-mode pass (`train = False`) enables gradient
computation only as `False`, performs no zero_grad, no backward pass
and no optimizer step, and leaves the model parameters and the
optimizer state unchanged. -/
theorem claim_C7 {σ : Type} (ep L : ℕ) (M : ModelOps σ) (init : σ)
    (bs : List BatchOutcome)
    (h : isOkE (process_epoch ep false L M init bs) = true) :
    stOf (process_epoch ep false L M init bs) = some init ∧
    mutOf (process_epoch ep false L M init bs) = some [] ∧
    gradOf (process_epoch ep false L M init bs) = some [false] := by
  rw [process_epoch_isOk, runBatches_ok_iff] at h
  obtain ⟨s', hrun, -, -, hf, hg⟩ :=
    runBatches_spec false ep L M bs.enum
      ⟨[], [Ev.setGradEnabled false], init⟩ h
  obtain ⟨hst, hmut⟩ := hf rfl
  unfold process_epoch
  rw [hrun]
  refine ⟨?_, ?_, ?_⟩
  · simp [stOf, hst]
  · simp only [mutOf]
    rw [hmut]
    simp [mutEvs]
  · simp only [gradOf]
    rw [hg]
    simp [gradModes]

/-- Claim C9: the log ticks of a completed epoch pass are exactly
`expTicks`: one tick per non-skipped batch whose dataloader index is
divisible by the log interval, carrying mode, epoch index, batch
index and running average; in particular a non-skipped first batch
(index 0) always ticks, and a tick can only occur at an index that is
divisible by the interval and holds a non-skipped batch (so a skipped
batch produces no tick). -/
theorem claim_C9 {σ : Type} (ep : ℕ) (train : Bool) (L : ℕ)
    (M : ModelOps σ) (init : σ) (bs : List BatchOutcome) (_hL : 0 < L)
    (h : isOkE (process_epoch ep train L M init bs) = true) :
    ticksResOf (process_epoch ep train L M init bs) =
      some (expTicks train ep L [] bs.enum) ∧
    (∀ l rest, bs = BatchOutcome.ok l :: rest →
      (train, ep, 0, meanD [l]) ∈ expTicks train ep L [] bs.enum) ∧
    (∀ t e i a, (t, e, i, a) ∈ expTicks train ep L [] bs.enum →
      i % L = 0 ∧ ∃ l, (i, BatchOutcome.ok l) ∈ bs.enum) ∧
    (∀ i, (i, BatchOutcome.noGrad) ∈ bs.enum →
      ∀ t e a, (t, e, i, a) ∉ expTicks train ep L [] bs.enum) := by
  rw [process_epoch_isOk, runBatches_ok_iff] at h
  obtain ⟨s', hrun, -, ht, -, -⟩ :=
    runBatches_spec train ep L M bs.enum
      ⟨[], [Ev.setGradEnabled train], init⟩ h
  refine ⟨?_, ?_, ?_, ?_⟩
  · unfold process_epoch
    rw [hrun]
    simp only [ticksResOf]
    rw [ht]
    simp [ticksOf]
  · intro l rest hbs
    subst hbs
    rw [List.enum_cons, expTicks]
    simp
  · exact fun t e i a hm => expTicks_mem train ep L bs.enum [] t e i a hm
  · intro i hng t e a hm
    obtain ⟨-, l, hok⟩ := expTicks_mem train ep L bs.enum [] t e i a hm
    rw [List.mk_mem_enum_iff_getElem?] at hng hok
    rw [hng] at hok
    exact absurd (Option.some.inj hok) (by simp)

/-! ### Lemmas: the outer training loop -/

lemma histUpTo_succ {α : Type} (f : ℕ → α) (n : ℕ) :
    histUpTo f (n + 1) = histUpTo f n ++ [f (n + 1)] := by
  simp [histUpTo, List.range_succ]

lemma min_if {α : Type} [LinearOrder α] (a b : α) :
    (if b < a then b else a) = min a b := by
  rcases lt_or_ge b a with h | h
  · rw [if_pos h, min_eq_right h.le]
  · rw [if_neg (not_lt.mpr h), min_eq_left h]

/-- Main induction for the outer loop: after `n` completed epochs the
run has not raised, the histories hold the per-epoch losses of epochs
1..n in order, `min_validation_loss` is the minimum of the validation
losses seen so far (epochs 0..n) exactly when validation is enabled,
exactly one checkpoint file per epoch has been saved with the full
state bundle, the dataset builds are one validation build before
epoch 1 (when validation is enabled) plus one training build per
epoch, and the best checkpoint — when it exists — is a copy of an
epoch checkpoint whose validation loss attains that minimum. -/
lemma outerLoop_spec {α μ ω : Type} [LinearOrder α] (args : Args)
    (f g : ℕ → α) (ms : ℕ → μ) (os' : ℕ → ω) (n : ℕ) :
    ∃ st, outerLoop args f g ms os' n = Except.ok st ∧
      st.train_loss_history = histUpTo f n ∧
      st.validation_loss_history =
        (if args.use_validation then histUpTo g n else []) ∧
      st.min_validation_loss =
        (if args.use_validation then some (minUpTo g n) else none) ∧
      st.savedFiles = (List.range n).map
        (fun k => (ckptName args.ckptPre (k + 1),
                   ckptAt args f g ms os' (k + 1))) ∧
      st.builds =
        (if args.use_validation then [(DS.validation, 0)] else []) ++
          (List.range n).map (fun k => (DS.training, k + 1)) ∧
      (args.use_validation = false → st.bestFile = none) ∧
      (∀ p, st.bestFile = some p → ∃ e, 1 ≤ e ∧ e ≤ n ∧
        p = (bestName args.ckptPre, ckptAt args f g ms os' e) ∧
        g e = minUpTo g n) := by
  induction n with
  | zero =>
    refine ⟨initState args g, rfl, ?_, ?_, ?_, ?_, ?_, ?_, ?_⟩ <;>
      by_cases hv : args.use_validation = true <;>
        simp [initState, hv, histUpTo, minUpTo]
  | succ n ih =>
    obtain ⟨st, hrun, h1, h2, h3, h4, h5, h6, h7⟩ := ih
    have hstep : outerLoop args f g ms os' (n + 1) =
        epochStep args f g ms os' st (n + 1) := by
      rw [outerLoop, hrun]
    by_cases hv : args.use_validation = true
    · rw [if_pos hv] at h2 h3
      have hck :
          ({ args := args, epoch_idx := n + 1, model := ms (n + 1),
             optimizer := os' (n + 1),
             train_loss_history := st.train_loss_history ++ [f (n + 1)],
             validation_loss_history :=
               st.validation_loss_history ++ [g (n + 1)] } : Ckpt α μ ω) =
          ckptAt args f g ms os' (n + 1) := by
        simp [ckptAt, hv, h1, h2, histUpTo_succ]
      by_cases himp : g (n + 1) < minUpTo g n
      · simp only [epochStep, hv, if_true, h3, if_pos himp] at hstep
        refine ⟨_, hstep, ?_, ?_, ?_, ?_, ?_, ?_, ?_⟩
        · simp [h1, histUpTo_succ]
        · simp [hv, h2, histUpTo_succ]
        · simp only [hv, if_true]
          rw [minUpTo, min_eq_right himp.le]
        · simp only [hv, if_true, hck]
          rw [h4, List.range_succ]
          simp
        · rw [h5, List.range_succ]
          simp [hv]
        · intro hfalse; rw [hv] at hfalse; cases hfalse
        · intro p hp
          simp only [Option.some.injEq] at hp
          refine ⟨n + 1, by omega, le_refl _, ?_, ?_⟩
          · rw [← hp, hck]
          · rw [minUpTo, min_eq_right himp.le]
      · simp only [epochStep, hv, if_true, h3, if_neg himp] at hstep
        refine ⟨_, hstep, ?_, ?_, ?_, ?_, ?_, ?_, ?_⟩
        · simp [h1, histUpTo_succ]
        · simp [hv, h2, histUpTo_succ]
        · simp only [hv, if_true]
          rw [minUpTo, min_eq_left (not_lt.mp himp)]
        · simp only [hv, if_true, hck]
          rw [h4, List.range_succ]
          simp
        · rw [h5, List.range_succ]
          simp [hv]
        · intro hfalse; rw [hv] at hfalse; cases hfalse
        · intro p hp
          obtain ⟨e, he1, he2, he3, he4⟩ := h7 p hp
          refine ⟨e, he1, he2.trans (by omega), he3, ?_⟩
          rw [minUpTo, min_eq_left (not_lt.mp himp), he4]
    · have hv' : args.use_validation = false := by
        revert hv; cases args.use_validation <;> simp
      rw [if_neg hv] at h2 h3
      simp only [epochStep, hv', Bool.false_eq_true, if_false] at hstep
      refine ⟨_, hstep, ?_, ?_, ?_, ?_, ?_, ?_, ?_⟩
      · simp [h1, histUpTo_succ]
      · simp [hv', h2]
      · simp [hv', h3]
      · simp only [hv', Bool.false_eq_true, if_false]
        rw [h4, List.range_succ]
        simp [ckptAt, hv', h1, h2, histUpTo_succ]
      · rw [h5, List.range_succ]
        simp [hv']
      · intro _; exact h6 hv'
      · intro p hp
        rw [h6 hv'] at hp
        cases hp

/-! ### Claims about the outer loop (C2, C4, C5, C10) -/

/-- Claim C2: with validation enabled, after every epoch's checkpoint
write `min_validation_loss` is the minimum of all validation losses
seen so far (epoch-0 baseline included); the best checkpoint is
(re)written exactly when the latest validation loss is strictly below
the previous minimum, in which case it becomes a copy of the current
epoch checkpoint; and whenever a best checkpoint exists it is a copy
of an epoch checkpoint whose validation loss attains the minimum of
all validation losses seen so far. -/
theorem claim_C2 {α μ ω : Type} [LinearOrder α] (args : Args)
    (f g : ℕ → α) (ms : ℕ → μ) (os' : ℕ → ω) (n : ℕ)
    (hv : args.use_validation = true) :
    minValOf (outerLoop args f g ms os' (n + 1)) =
      some (some (minUpTo g (n + 1))) ∧
    (g (n + 1) < minUpTo g n →
      bestOf (outerLoop args f g ms os' (n + 1)) =
        some (some (bestName args.ckptPre,
          ckptAt args f g ms os' (n + 1)))) ∧
    (¬ g (n + 1) < minUpTo g n →
      bestOf (outerLoop args f g ms os' (n + 1)) =
        bestOf (outerLoop args f g ms os' n)) ∧
    (∀ p, bestOf (outerLoop args f g ms os' (n + 1)) = some (some p) →
      ∃ e, 1 ≤ e ∧ e ≤ n + 1 ∧
        p = (bestName args.ckptPre, ckptAt args f g ms os' e) ∧
        g e = minUpTo g (n + 1)) := by
  obtain ⟨st', hrun', -, -, h3', -, -, -, h7'⟩ :=
    outerLoop_spec args f g ms os' (n + 1)
  obtain ⟨st, hrun, h1, h2, h3, -, -, -, -⟩ :=
    outerLoop_spec args f g ms os' n
  rw [if_pos hv] at h2 h3
  have hstep : outerLoop args f g ms os' (n + 1) =
      epochStep args f g ms os' st (n + 1) := by
    rw [outerLoop, hrun]
  refine ⟨?_, ?_, ?_, ?_⟩
  · rw [hrun']
    simp only [minValOf, h3', hv, if_true]
  · intro himp
    simp only [epochStep, hv, if_true, h3, if_pos himp] at hstep
    rw [hstep]
    simp only [bestOf, Option.some.injEq, Option.some.injEq]
    simp [ckptAt, hv, h1, h2, histUpTo_succ]
  · intro himp
    simp only [epochStep, hv, if_true, h3, if_neg himp] at hstep
    rw [hstep, hrun]
    simp [bestOf]
  · intro p hp
    rw [hrun'] at hp
    simp only [bestOf, Option.some.injEq] at hp
    exact h7' p hp

/-- Claim C4: every completed run writes exactly one checkpoint file
per epoch `i = 1, …, num_epochs`, in order, named
`<stem>.<zero-padded epoch>.pth`, containing the configuration, the
epoch index, the model and optimizer states and the entire loss
histories as of that epoch. -/
theorem claim_C4 {α μ ω : Type} [LinearOrder α] (args : Args)
    (f g : ℕ → α) (ms : ℕ → μ) (os' : ℕ → ω) :
    filesOf (trainRun args f g ms os') =
      some ((List.range args.num_epochs).map
        (fun k => (ckptName args.ckptPre (k + 1),
                   ckptAt args f g ms os' (k + 1)))) := by
  obtain ⟨st, hrun, -, -, -, h4, -, -, -⟩ :=
    outerLoop_spec args f g ms os' args.num_epochs
  unfold trainRun
  rw [hrun]
  simp [filesOf, h4]

/-- Claim C5 (amended): the training dataset is rebuilt exactly once
per epoch, at the start of that epoch; the validation dataset, when
validation is enabled, is built exactly once — before the epoch-0
baseline validation pass — and is never rebuilt in the epoch loop. -/
theorem claim_C5 {α μ ω : Type} [LinearOrder α] (args : Args)
    (f g : ℕ → α) (ms : ℕ → μ) (os' : ℕ → ω) :
    buildsOf (trainRun args f g ms os') =
      some ((if args.use_validation then [(DS.validation, 0)] else []) ++
        (List.range args.num_epochs).map (fun k => (DS.training, k + 1))) := by
  obtain ⟨st, hrun, -, -, -, -, h5, -, -⟩ :=
    outerLoop_spec args f g ms os' args.num_epochs
  unfold trainRun
  rw [hrun]
  simp only [buildsOf, h5]

/-- A concrete configuration with validation enabled and one epoch. -/
def cArgsV : Args :=
  { dataset_path := "/data/megadepth", scene_info_path := "/data/scene_info",
    preprocessing := "caffe", model_file := "models/d2_ots.pth",
    num_epochs := 1, batch_size := 1, num_workers := 8,
    use_validation := true, log_interval := 500, log_file := "log.txt",
    ckptPre := "d2" }

/-- A concrete configuration with validation disabled and two epochs. -/
def cArgsNV : Args :=
  { dataset_path := "/data/megadepth", scene_info_path := "/data/scene_info",
    preprocessing := "caffe", model_file := "models/d2_ots.pth",
    num_epochs := 2, batch_size := 1, num_workers := 8,
    use_validation := false, log_interval := 500, log_file := "log.txt",
    ckptPre := "d2" }

/-- Concrete per-epoch losses for evaluating runs. -/
def cLoss : ℕ → ℕ := fun i => i

/-- Concrete model / optimizer state snapshots. -/
def cZero : ℕ → ℕ := fun _ => 0

/-- Counterexample to claim C5 as stated: in a one-epoch run with
validation enabled, the validation dataset receives no
`build_dataset()` call at the start of epoch 1 (its only build happens
once, before the epoch-0 baseline pass), so it is not rebuilt at the
start of every epoch. -/
theorem claim_C5_counterexample :
    buildsOf (trainRun cArgsV cLoss cLoss cZero cZero) =
      some [(DS.validation, 0), (DS.training, 1)] ∧
    (DS.validation, 1) ∉ [(DS.validation, 0), (DS.training, 1)] :=
  ⟨by decide, by decide⟩

/-- Claim C10: with validation disabled, the run completes without
ever reading the undefined `min_validation_loss` (reading it would be
a `NameError`, modelled as `Except.error`), the variable is never
defined, and no best-checkpoint file is ever written. -/
theorem claim_C10 {α μ ω : Type} [LinearOrder α] (args : Args)
    (f g : ℕ → α) (ms : ℕ → μ) (os' : ℕ → ω)
    (hnv : args.use_validation = false) :
    isOkE (trainRun args f g ms os') = true ∧
    minValOf (trainRun args f g ms os') = some none ∧
    bestOf (trainRun args f g ms os') = some none := by
  obtain ⟨st, hrun, -, -, h3, -, -, h6, -⟩ :=
    outerLoop_spec args f g ms os' args.num_epochs
  unfold trainRun
  rw [hrun]
  rw [hnv] at h3
  simp only [Bool.false_eq_true, if_false] at h3
  simp [isOkE, minValOf, bestOf, h3, h6 hnv]

/-! ### Claims about files and logging (C6, C8) -/

lemma make_list_files_eq (fs : FS) (folders : List String) :
    make_list_files fs folders =
      (folders.map (folderImages fs)).flatten := by
  have key : ∀ (fl : List String) (acc : List String),
      fl.foldl (fun files folder => files ++ folderImages fs folder) acc =
        acc ++ (fl.map (folderImages fs)).flatten := by
    intro fl
    induction fl with
    | nil => intro acc; simp
    | cons d ds ih => intro acc; simp [ih, List.append_assoc]
  simpa [make_list_files] using key folders []

/-- Claim C6: every line of the image lister's manifest is the join of
an input directory with an entry of that directory's listing that is
a regular file ending in the image extension; output is concatenated
preserving directory order and within-directory enumeration order;
the output file is overwritten regardless of its prior content; and
for disjoint directories (duplicate-free listings with pairwise
disjoint contributed paths) the manifest has no duplicate lines. -/
theorem claim_C6 (fs : FS) (folders : List String) :
    (∀ p ∈ make_list_files fs folders, ∃ d ∈ folders,
      ∃ f ∈ fs.listdir d, fs.isfile (osPathJoin d f) = true ∧
        pyEndsWith f ".jpg" = true ∧ p = osPathJoin d f) ∧
    (∀ ds₁ ds₂ : List String, make_list_files fs (ds₁ ++ ds₂) =
      make_list_files fs ds₁ ++ make_list_files fs ds₂) ∧
    (∀ d : String, make_list_files fs [d] = folderImages fs d) ∧
    (∀ prior prior' : String,
      images_txt fs folders prior = images_txt fs folders prior') ∧
    ((∀ d ∈ folders, (folderImages fs d).Nodup) →
      (folders.map (folderImages fs)).Pairwise
        (fun l₁ l₂ => ∀ p ∈ l₁, p ∉ l₂) →
      (make_list_files fs folders).Nodup) := by
  refine ⟨?_, ?_, ?_, ?_, ?_⟩
  · intro p hp
    rw [make_list_files_eq] at hp
    obtain ⟨l, hl, hpl⟩ := List.mem_flatten.mp hp
    obtain ⟨d, hd, rfl⟩ := List.mem_map.mp hl
    rw [folderImages] at hpl
    obtain ⟨fname, hf, rfl⟩ := List.mem_map.mp hpl
    rw [List.mem_filter] at hf
    obtain ⟨hmem, hpred⟩ := hf
    simp only [Bool.and_eq_true] at hpred
    exact ⟨d, hd, fname, hmem, hpred.1, hpred.2, rfl⟩
  · intro ds₁ ds₂
    rw [make_list_files_eq, make_list_files_eq, make_list_files_eq]
    simp
  · intro d
    simp [make_list_files, folderImages]
  · intro prior prior'
    simp [images_txt, pyWrite]
  · intro hnd hdisj
    rw [make_list_files_eq, List.nodup_flatten]
    refine ⟨?_, ?_⟩
    · intro l hl
      obtain ⟨d, hd, rfl⟩ := List.mem_map.mp hl
      exact hnd d hd
    · refine hdisj.imp ?_
      intro l₁ l₂ hd a ha
      exact hd a ha

/-- Claim C8: if the log file pre-exists the orchestrator emits the
warning but execution is not refused — the run is the same as with no
pre-existing file — and because the file is opened in append mode the
pre-existing content is preserved as a prefix of the final content. -/
theorem claim_C8 {α μ ω : Type} [LinearOrder α] (args : Args)
    (f g : ℕ → α) (ms : ℕ → μ) (os' : ℕ → ω) (pre written : String) :
    (mainRun args f g ms os' (some pre) written).1 = true ∧
    (mainRun args f g ms os' none written).1 = false ∧
    (mainRun args f g ms os' (some pre) written).2.1 = pre ++ written ∧
    (mainRun args f g ms os' (some pre) written).2.2 =
      (mainRun args f g ms os' none written).2.2 := by
  refine ⟨rfl, rfl, ?_, rfl⟩
  simp [mainRun, pyWrite]

/-! ### Witnesses: the claim theorems with hypotheses, evaluated at
concrete inputs -/

/-- Concrete model-plus-optimizer operations over `ℕ` states. -/
def M0 : ModelOps ℕ :=
  { zero_grad := fun s => s + 1, backward := fun s _ => s + 2,
    opt_step := fun s => s + 3 }

/-- A concrete filesystem for evaluating the image lister. -/
def cFS : FS :=
  { listdir := fun d =>
      if d = "a/" then ["1.jpg", "2.jpg", "n.txt"]
      else if d = "b/" then ["1.jpg"] else [],
    isfile := fun _ => true }

theorem claim_C1_witness :
    epochResult (process_epoch 0 true 500 M0 (0 : ℕ)
        [BatchOutcome.ok 2, BatchOutcome.noGrad, BatchOutcome.ok 4]) =
      some (npMean ([BatchOutcome.ok 2, BatchOutcome.noGrad,
        BatchOutcome.ok 4].filterMap okLoss)) :=
  (claim_C1 0 true 500 M0 0
    [BatchOutcome.ok 2, BatchOutcome.noGrad, BatchOutcome.ok 4]
    (by decide)).1

theorem claim_C2_witness :
    minValOf (outerLoop cArgsV cLoss cLoss cZero cZero 1) =
      some (some (minUpTo cLoss 1)) :=
  (claim_C2 cArgsV cLoss cLoss cZero cZero 0 rfl).1

theorem claim_C6_witness : (make_list_files cFS ["a/", "b/"]).Nodup :=
  (claim_C6 cFS ["a/", "b/"]).2.2.2.2 (by decide) (by decide)

theorem claim_C7_witness :
    stOf (process_epoch 3 false 500 M0 (37 : ℕ) [BatchOutcome.noGrad]) =
      some 37 :=
  (claim_C7 3 500 M0 37 [BatchOutcome.noGrad] rfl).1

theorem claim_C9_witness :
    ticksResOf (process_epoch 7 false 2 M0 (0 : ℕ)
        [BatchOutcome.ok 2, BatchOutcome.noGrad, BatchOutcome.ok 4]) =
      some (expTicks false 7 2 []
        ([BatchOutcome.ok 2, BatchOutcome.noGrad,
          BatchOutcome.ok 4].enum)) :=
  (claim_C9 7 false 2 M0 0
    [BatchOutcome.ok 2, BatchOutcome.noGrad, BatchOutcome.ok 4]
    (by decide) rfl).1

theorem claim_C10_witness :
    isOkE (trainRun cArgsNV cLoss cLoss cZero cZero) = true :=
  (claim_C10 cArgsNV cLoss cLoss cZero cZero rfl).1

end D2Net
